import Mathlib

/-! Shallow embedding of `Bio/PDB/Residue.py` (gerdos/biopython): the `Residue`
atom container, its `mutate` algorithm, and the `DisorderedResidue` wrapper.
Python dicts are embedded as insertion-ordered association lists, floats as
rationals, and in-place mutation as explicit state passing; an operation that
can raise returns its (possibly partially updated) state together with an
optional exception.  The vector-math primitives (`calc_dihedral`, `rotaxis2m`,
`np.dot`) and the rotamer-library tables (`CHI_ANGLES`, `RESIDUE_ORDER`) are
external collaborators, embedded as abstract parameters. -/

namespace BioPDB

/-- Coordinates are 3-vectors; the float components are modelled as integers
(all numeric primitives are abstract `Geom` parameters and the claims under
study are structural, not about rounding). -/
abbrev Vec3 : Type := ℤ × ℤ × ℤ

/-- Python `d[k]` read on an insertion-ordered dict, as the first matching
entry of an association list. -/
def dictGet {α : Type} : List (String × α) → String → Option α
  | [], _ => none
  | (k', v) :: rest, k => if k' = k then some v else dictGet rest k

/-- Python `k in d`. -/
def dictHas {α : Type} (m : List (String × α)) (k : String) : Bool :=
  (dictGet m k).isSome

/-- Python `d[k] = v`: overwrite in place when the key exists (keeping its
insertion position), otherwise append a fresh entry. -/
def dictSet {α : Type} : List (String × α) → String → α → List (String × α)
  | [], k, v => [(k, v)]
  | (k', w) :: rest, k, v =>
    if k' = k then (k, v) :: rest else (k', w) :: dictSet rest k v

/-- Python `del d[k]`: remove the (unique) entry with this key, keeping the
order of the remaining entries. -/
def dictDel {α : Type} : List (String × α) → String → List (String × α)
  | [], _ => []
  | (k', w) :: rest, k => if k' = k then rest else (k', w) :: dictDel rest k

/-- The working coordinate map `sample_residue`: atom name to 3-vector. -/
abbrev Coords : Type := List (String × Vec3)

/-- The exceptions the embedded code can raise.  `atomDefinedTwice` and
`blankAltlocs` are the two `PDBConstructionException` messages of
`Residue.add` and `DisorderedResidue.add`; the rest are Python builtins. -/
inductive PyErr : Type where
  | keyError : String → PyErr
  | valueError : PyErr
  | indexError : PyErr
  | atomDefinedTwice : String → PyErr
  | blankAltlocs : String → PyErr
  | assertionError : PyErr
  | attributeError : PyErr
deriving DecidableEq

/-- Modelled from the spec: the general atom/vector math primitives
(`calc_dihedral`, degree-to-radian conversion, and the Rodrigues rotation
`np.dot(rotaxis2m(angle, axis), v)`) are out-of-scope given utilities
(`Bio/PDB/vectors.py` is not under `src/`), so they are abstract parameters. -/
structure Geom : Type where
  calcDihedral : Vec3 → Vec3 → Vec3 → Vec3 → ℤ
  deg2rad : ℤ → ℤ
  rotApply : ℤ → Vec3 → Vec3 → Vec3

/-- Modelled from the spec: one entry of the rotamer-library chi table — a
4-atom reference-plane tuple and a 2-atom rotation-axis pair. -/
structure ChiDef : Type where
  ref1 : String
  ref2 : String
  ref3 : String
  ref4 : String
  axis1 : String
  axis2 : String
deriving DecidableEq

/-- Modelled from the spec: the rotamer-library metadata (`CHI_ANGLES` and
`RESIDUE_ORDER` from `Bio/PDB/rotamers.py`, not under `src/`): per chi-angle
name and residue type an optional `ChiDef`, and per residue type a canonical
atom ordering. -/
structure RotamerMeta : Type where
  chi : String → String → Option ChiDef
  residueOrder : String → List String

/-- Modelled from the spec: an `Atom` record (`Bio/PDB/Atom.py` is not under
`src/`): name (its id), element, 4-character display name, coordinate,
B-factor, alternate-location code, occupancy, serial number; plus the
`is_disordered()` flag (2 for a multi-location group) and the parent
back-reference set by `Entity.add`. -/
structure Atom : Type where
  name : String
  element : String
  fullname : String
  coord : Vec3
  bfactor : ℤ
  altloc : String
  occupancy : ℤ
  serialNumber : ℕ
  disorderedFlag : ℕ
  parent : Option String
deriving DecidableEq

/-- A residue: identifier, residue-type name, segment id, and its atoms in
insertion order (children are keyed by atom name). -/
structure Residue : Type where
  id : String
  resname : String
  segid : String
  children : List Atom
deriving DecidableEq

/-- `Entity.has_id`: whether an atom with this id (name) is a child. -/
def Residue.has_id (r : Residue) (k : String) : Bool :=
  r.children.any (fun a => a.name = k)

/-- Modelled from the spec: `Entity.add` (`Bio/PDB/Entity.py` is not under
`src/`): reject a duplicate id, otherwise set the child's parent reference to
this container and register it. -/
def entityAdd (r : Residue) (a : Atom) : Except PyErr Residue :=
  if r.has_id a.name then .error (.atomDefinedTwice a.name)
  else .ok { r with children := r.children ++ [{ a with parent := some r.id }] }

/-- `Residue.add`: raise `PDBConstructionException` ("Atom ... defined twice")
on a duplicate atom id, else delegate to `Entity.add`. -/
def Residue.add (r : Residue) (a : Atom) : Except PyErr Residue :=
  if r.has_id a.name then .error (.atomDefinedTwice a.name)
  else entityAdd r a

/-- The Rodrigues step applied to one atom coordinate `c`:
`np.dot(rotaxis2m(angle, Vector(v0 - v1)), c - v1) + v1`. -/
def chiRotate (g : Geom) (angle : ℤ) (v0 v1 c : Vec3) : Vec3 :=
  g.rotApply angle (v0 - v1) (c - v1) + v1

/-- The inner loop of `mutate` over the downstream atoms of one chi angle:
each iteration re-reads the axis coordinates and the atom coordinate from the
working map and overwrites the atom's entry; a missing key raises `KeyError`
(reads happen in source evaluation order: axis first atom, axis second atom,
then the rotated atom). -/
def rotateAtoms (g : Geom) (angle : ℤ) (ax0 ax1 : String) :
    List String → Coords → Coords × Option PyErr
  | [], m => (m, none)
  | a :: rest, m =>
    match dictGet m ax0 with
    | none => (m, some (PyErr.keyError ax0))
    | some v0 =>
      match dictGet m ax1 with
      | none => (m, some (PyErr.keyError ax1))
      | some v1 =>
        match dictGet m a with
        | none => (m, some (PyErr.keyError a))
        | some c =>
          rotateAtoms g angle ax0 ax1 rest (dictSet m a (chiRotate g angle v0 v1 c))

/-- One iteration of the chi loop of `mutate` (source lines 131-157): skip if
the target type has no definition for this chi name; otherwise measure the
current dihedral of the four reference-plane atoms on the working map, subtract
the rotamer's target angle converted to radians, find the axis second atom in
the canonical ordering (`list.index`, `ValueError` if absent), and rotate every
atom strictly after it. -/
def applyChiStep (g : Geom) (meta : RotamerMeta) (t : String)
    (rotamer : String → Option ℤ) (angleName : String) (m : Coords) :
    Coords × Option PyErr :=
  match meta.chi angleName t with
  | none => (m, none)
  | some cd =>
    match dictGet m cd.ref1, dictGet m cd.ref2, dictGet m cd.ref3, dictGet m cd.ref4 with
    | some v1, some v2, some v3, some v4 =>
      match rotamer angleName with
      | none => (m, some (PyErr.keyError angleName))
      | some target =>
        match (meta.residueOrder t).findIdx? (fun a => a == cd.axis2) with
        | none => (m, some PyErr.valueError)
        | some i =>
          rotateAtoms g (g.calcDihedral v1 v2 v3 v4 - g.deg2rad target)
            cd.axis1 cd.axis2 ((meta.residueOrder t).drop (i + 1)) m
    | none, _, _, _ => (m, some (PyErr.keyError cd.ref1))
    | some _, none, _, _ => (m, some (PyErr.keyError cd.ref2))
    | some _, some _, none, _ => (m, some (PyErr.keyError cd.ref3))
    | some _, some _, some _, none => (m, some (PyErr.keyError cd.ref4))

/-- The chi loop of `mutate`, stopping at the first raised exception. -/
def applyChiLoop (g : Geom) (meta : RotamerMeta) (t : String)
    (rotamer : String → Option ℤ) : List String → Coords → Coords × Option PyErr
  | [], m => (m, none)
  | name :: rest, m =>
    match applyChiStep g meta t rotamer name m with
    | (m', none) => applyChiLoop g meta t rotamer rest m'
    | (m', some e) => (m', some e)

/-- The literal list `["CHI1", "CHI2", "CHI3", "CHI4"]` of source line 131. -/
def chiNames : List String := ["CHI1", "CHI2", "CHI3", "CHI4"]

/-- All four chi iterations in ascending order. -/
def applyChis (g : Geom) (meta : RotamerMeta) (t : String)
    (rotamer : String → Option ℤ) (m : Coords) : Coords × Option PyErr :=
  applyChiLoop g meta t rotamer chiNames m

/-- The rotation phase of `mutate`: run only when the target is not in
`["ALA", "GLY"]` (source line 129). -/
def chiPhase (g : Geom) (meta : RotamerMeta) (t : String)
    (rotamer : String → Option ℤ) (m : Coords) : Coords × Option PyErr :=
  if t ∉ ["ALA", "GLY"] then applyChis g meta t rotamer m else (m, none)

/-- The display name of a constructed atom: padded to 4 characters with
leading spaces (Python `" " * (4 - len(atom)) + atom`; natural subtraction
matches Python's empty string for a negative repeat count). -/
def padFullname (n : String) : String :=
  String.mk (List.replicate (4 - n.length) ' ') ++ n

/-- The atom record constructed by `mutate` (source lines 160-171): element is
the first character of the name (the loop raises `IndexError` on an empty
name before this record is ever built, so `take 1` here is that first
character), B-factor 1.0, blank altloc, occupancy 1.0, sentinel serial number
9999; a plain (non-disordered) atom with no parent until added. -/
def newSideChainAtom (n : String) (c : Vec3) : Atom :=
  { name := n
    element := n.take 1
    fullname := padFullname n
    coord := c
    bfactor := 1
    altloc := " "
    occupancy := 1
    serialNumber := 9999
    disorderedFlag := 0
    parent := none }

/-- The fixed backbone name list `["C", "N", "CA", "O"]` of source line 159. -/
def backboneNames : List String := ["C", "N", "CA", "O"]

/-- The final loop of `mutate` (source lines 158-172): walk the working map in
insertion order and, for every non-backbone name, construct and add an atom.
The construction evaluates `atom[0]` for the element, so an empty name raises
`IndexError` before any atom is built or added; any raised exception stops
the loop, keeping the atoms already added. -/
def addSideChainAtoms : Residue → List (String × Vec3) → Residue × Option PyErr
  | r, [] => (r, none)
  | r, (n, c) :: rest =>
    if n ∈ backboneNames then addSideChainAtoms r rest
    else if n = "" then (r, some PyErr.indexError)
    else
      match r.add (newSideChainAtom n c) with
      | .ok r' => addSideChainAtoms r' rest
      | .error e => (r, some e)

/-- `Residue.mutate` (source lines 122-173): the chi-rotation phase followed by
the atom-construction loop, then (only after every addition succeeded) the
`resname` overwrite.  Returns the residue, the final working coordinate map,
and the raised exception if any. -/
def Residue.mutate (g : Geom) (meta : RotamerMeta) (r : Residue) (mutateTo : String)
    (sampleResidue : Coords) (rotamer : String → Option ℤ) :
    Residue × Coords × Option PyErr :=
  match chiPhase g meta mutateTo rotamer sampleResidue with
  | (m, some e) => (r, m, some e)
  | (m, none) =>
    match addSideChainAtoms r m with
    | (r', none) => ({ r' with resname := mutateTo }, m, none)
    | (r', some e) => (r', m, some e)

/-- Sequential composition of two fallible coordinate-map transformations:
run the second only when the first raised nothing (the control flow of the
chi loop). -/
def stepThen (f k : Coords → Coords × Option PyErr) (m : Coords) :
    Coords × Option PyErr :=
  match f m with
  | (m', none) => k m'
  | (m', some e) => (m', some e)

/-- The entries of a coordinate map whose names are outside the fixed backbone
set — exactly the ones `mutate` constructs atoms for. -/
def sideChainEntries : Coords → Coords
  | [] => []
  | (n, c) :: rest =>
    if n ∈ backboneNames then sideChainEntries rest
    else (n, c) :: sideChainEntries rest

/-- Modelled from the spec: the `DisorderedResidue` state from
`DisorderedEntityWrapper` (`Bio/PDB/Entity.py` is not under `src/`): an
insertion-ordered mapping resname → variant and the selected variant's key
(`selected_child`), if any. -/
structure DisorderedResidue : Type where
  children : List (String × Residue)
  selected : Option String
deriving DecidableEq

/-- `DisorderedResidue.add` (source lines 197-211): fetch the selected
variant; for a non-disordered atom, add it to the selected variant anyway and
then raise the blank-altlocs `PDBConstructionException`; for a disordered
group, add it without raising.  A failure inside the variant's own `add`
(duplicate id) propagates instead, and with no selected variant the attribute
access on `None` raises. -/
def DisorderedResidue.add (dr : DisorderedResidue) (atom : Atom) :
    DisorderedResidue × Option PyErr :=
  match dr.selected with
  | none => (dr, some PyErr.attributeError)
  | some key =>
    match dictGet dr.children key with
    | none => (dr, some (PyErr.keyError key))
    | some residue =>
      if atom.disorderedFlag ≠ 2 then
        match residue.add atom with
        | .error e => (dr, some e)
        | .ok res' =>
          ({ dr with children := dictSet dr.children key res' },
            some (PyErr.blankAltlocs residue.resname))
      else
        match residue.add atom with
        | .error e => (dr, some e)
        | .ok res' => ({ dr with children := dictSet dr.children key res' }, none)

/-- `DisorderedResidue.disordered_add` (source lines 218-231): assert the
resname is fresh, register the variant under its resname, and select it. -/
def DisorderedResidue.disordered_add (dr : DisorderedResidue) (residue : Residue) :
    DisorderedResidue × Option PyErr :=
  if dictHas dr.children residue.resname then (dr, some PyErr.assertionError)
  else
    ({ children := dictSet dr.children residue.resname residue
       selected := some residue.resname }, none)

/-- `DisorderedResidue.disordered_remove` (source lines 233-252): delete the
variant (`KeyError` if absent); if it was selected and variants remain, select
the first remaining one in insertion order; if none remain, clear the
selection. -/
def DisorderedResidue.disordered_remove (dr : DisorderedResidue) (resname : String) :
    DisorderedResidue × Option PyErr :=
  match dictGet dr.children resname with
  | none => (dr, some (PyErr.keyError resname))
  | some _ =>
    let isSelected : Bool := dr.selected = some resname
    let rest := dictDel dr.children resname
    match rest with
    | [] => ({ children := rest, selected := none }, none)
    | (k, _) :: _ =>
      if isSelected then ({ children := rest, selected := some k }, none)
      else ({ dr with children := rest }, none)

/-- A concrete geometry instance used to evaluate the development on explicit
inputs (the abstract primitives instantiated with simple rational maps). -/
def demoGeom : Geom where
  calcDihedral a b c d := a.1 + b.2.1 + c.2.2 + d.1
  deg2rad x := x / 30
  rotApply angle ax v := v + ax + (angle, 0, angle)

/-- A concrete chi-table entry in the shape of the serine CHI1 row:
reference plane N-CA-CB-OG, axis (CA, CB). -/
def demoChiDef : ChiDef :=
  { ref1 := "N", ref2 := "CA", ref3 := "CB", ref4 := "OG"
    axis1 := "CA", axis2 := "CB" }

/-- Concrete rotamer metadata: one residue type "SER" with a single CHI1. -/
def demoMeta : RotamerMeta where
  chi angleName t := if angleName = "CHI1" ∧ t = "SER" then some demoChiDef else none
  residueOrder t := if t = "SER" then ["N", "CA", "C", "O", "CB", "OG"] else []

/-- A concrete rotamer angle map defining only CHI1. -/
def demoRot : String → Option ℤ := fun s => if s = "CHI1" then some 60 else none

/-- A rotamer angle map defining nothing (enough for chi-free targets). -/
def demoRotNone : String → Option ℤ := fun _ => none

/-- A concrete full working coordinate map for the "SER"-shaped target. -/
def demoCoords : Coords :=
  [("N", (0, 0, 0)), ("CA", (1, 0, 0)), ("C", (2, 0, 0)), ("O", (3, 0, 0)),
    ("CB", (1, 1, 0)), ("OG", (1, 2, 0))]

/-- A working coordinate map holding the backbone plus one side-chain atom. -/
def demoSampleCB : Coords :=
  [("N", (0, 0, 0)), ("CA", (1, 0, 0)), ("C", (2, 0, 0)), ("O", (3, 0, 0)),
    ("CB", (1, 1, 0))]

/-- A working coordinate map holding only the four backbone atoms. -/
def demoSampleBB : Coords :=
  [("N", (0, 0, 0)), ("CA", (1, 0, 0)), ("C", (2, 0, 0)), ("O", (3, 0, 0))]

/-- A pre-existing (parsed) atom with a given name and coordinate. -/
def bbAtom (n : String) (c : Vec3) : Atom :=
  { name := n, element := n.take 1, fullname := padFullname n, coord := c
    bfactor := 0, altloc := " ", occupancy := 1, serialNumber := 1
    disorderedFlag := 0, parent := none }

/-- A concrete residue holding exactly the four backbone atoms. -/
def demoRes : Residue :=
  { id := "res44", resname := "LEU", segid := " "
    children := [bbAtom "N" (0, 0, 0), bbAtom "CA" (1, 0, 0),
      bbAtom "C" (2, 0, 0), bbAtom "O" (3, 0, 0)] }

/-- The backbone residue with one leftover non-backbone atom named CB. -/
def demoResCB : Residue :=
  { demoRes with children := demoRes.children ++ [bbAtom "CB" (1, 1, 0)] }

/-- A concrete residue variant named SER holding one atom CA. -/
def demoVariant1 : Residue :=
  { id := "res60", resname := "SER", segid := " "
    children := [bbAtom "CA" (0, 0, 0)] }

/-- A concrete residue variant named CYS holding no atoms. -/
def demoVariant2 : Residue :=
  { id := "res60", resname := "CYS", segid := " ", children := [] }

/-- A disordered residue with two variants, SER selected. -/
def demoDR : DisorderedResidue :=
  { children := [("SER", demoVariant1), ("CYS", demoVariant2)]
    selected := some "SER" }

/-- A disordered residue with two variants, CYS (the last added) selected. -/
def demoDR2 : DisorderedResidue :=
  { children := [("SER", demoVariant1), ("CYS", demoVariant2)]
    selected := some "CYS" }

/-- A plain (non-disordered) atom named CB. -/
def demoAtomCB : Atom := newSideChainAtom "CB" (5, 5, 5)

/-- A multi-location (disordered) atom group named CB. -/
def demoAtomCBGroup : Atom := { demoAtomCB with disorderedFlag := 2 }

/-- The invariant of the disordered wrapper: the selected variant, when one
exists, is a key present in the variant mapping. -/
def drInv (dr : DisorderedResidue) : Prop :=
  ∀ k, dr.selected = some k → dictHas dr.children k = true

/-- Lookup past an appended tail when the key is absent from the front. -/
theorem dictGet_append_of_none {α : Type} (m m' : List (String × α)) (k : String)
    (h : dictGet m k = none) : dictGet (m ++ m') k = dictGet m' k := by
  induction m with
  | nil => simp
  | cons p rest ih =>
    obtain ⟨a, w⟩ := p
    by_cases ha : a = k
    · simp [dictGet, ha] at h
    · simp only [dictGet, ha, if_false] at h
      simp [dictGet, ha, ih h]

/-- Lookup stops at the front when the key is present there. -/
theorem dictGet_append_of_some {α : Type} (m m' : List (String × α)) (k : String)
    (v : α) (h : dictGet m k = some v) : dictGet (m ++ m') k = some v := by
  induction m with
  | nil => simp [dictGet] at h
  | cons p rest ih =>
    obtain ⟨a, w⟩ := p
    by_cases ha : a = k
    · simp only [dictGet, ha, if_true] at h
      simp [dictGet, ha, h]
    · simp only [dictGet, ha, if_false] at h
      simp [dictGet, ha, ih h]

/-- Reading back a key just written. -/
theorem dictGet_dictSet_self {α : Type} (m : List (String × α)) (k : String)
    (v : α) : dictGet (dictSet m k v) k = some v := by
  induction m with
  | nil => simp [dictSet, dictGet]
  | cons p rest ih =>
    obtain ⟨a, w⟩ := p
    by_cases ha : a = k
    · simp [dictSet, ha, dictGet]
    · simp [dictSet, ha, dictGet, ih]

/-- Writing one key leaves every other key unchanged. -/
theorem dictGet_dictSet_ne {α : Type} (m : List (String × α)) (k k' : String)
    (v : α) (h : k' ≠ k) : dictGet (dictSet m k v) k' = dictGet m k' := by
  induction m with
  | nil =>
    have hne : k ≠ k' := fun hc => h hc.symm
    simp [dictSet, dictGet, hne]
  | cons p rest ih =>
    obtain ⟨a, w⟩ := p
    by_cases ha : a = k
    · subst ha
      have hne : a ≠ k' := fun hc => h hc.symm
      simp [dictSet, dictGet, hne]
    · by_cases hak : a = k'
      · simp [dictSet, ha, dictGet, hak, h]
      · simp [dictSet, ha, dictGet, hak, ih]

/-- Writing a key that is already present keeps the key sequence unchanged. -/
theorem keys_dictSet {α : Type} (m : List (String × α)) (k : String) (v : α)
    (h : dictHas m k = true) :
    (dictSet m k v).map Prod.fst = m.map Prod.fst := by
  induction m with
  | nil => simp [dictHas, dictGet] at h
  | cons p rest ih =>
    obtain ⟨a, w⟩ := p
    by_cases ha : a = k
    · simp [dictSet, ha]
    · have h' : dictHas rest k = true := by
        simpa [dictHas, dictGet, ha] using h
      simp [dictSet, ha, ih h']

/-- Deleting one key leaves lookups of other keys unchanged. -/
theorem dictGet_dictDel_ne {α : Type} (m : List (String × α)) (x k : String)
    (h : k ≠ x) :
    dictGet (dictDel m x) k = dictGet m k := by
  induction m with
  | nil => simp [dictDel]
  | cons p rest ih =>
    obtain ⟨a, w⟩ := p
    by_cases hax : a = x
    · subst hax
      have hne : a ≠ k := fun hc => h hc.symm
      simp [dictDel, dictGet, hne]
    · by_cases hak : a = k
      · simp [dictDel, hax, dictGet, hak, h]
      · simp [dictDel, hax, dictGet, hak, ih]

/-- Atoms outside the rotated list keep their coordinates, even when the loop
stops at an exception. -/
theorem rotateAtoms_unmoved (g : Geom) (angle : ℤ) (ax0 ax1 : String)
    (atoms : List String) :
    ∀ (m m' : Coords) (e : Option PyErr),
      rotateAtoms g angle ax0 ax1 atoms m = (m', e) →
      ∀ k, k ∉ atoms → dictGet m' k = dictGet m k := by
  induction atoms with
  | nil =>
    intro m m' e h k _
    simp only [rotateAtoms, Prod.mk.injEq] at h
    obtain ⟨rfl, rfl⟩ := h
    rfl
  | cons a rest ih =>
    intro m m' e h k hk
    rw [List.mem_cons] at hk
    push_neg at hk
    obtain ⟨hka, hkrest⟩ := hk
    simp only [rotateAtoms] at h
    cases h0 : dictGet m ax0 with
    | none =>
      simp only [h0, Prod.mk.injEq] at h
      obtain ⟨rfl, rfl⟩ := h
      rfl
    | some v0 =>
      simp only [h0] at h
      cases h1 : dictGet m ax1 with
      | none =>
        simp only [h1, Prod.mk.injEq] at h
        obtain ⟨rfl, rfl⟩ := h
        rfl
      | some v1 =>
        simp only [h1] at h
        cases h2 : dictGet m a with
        | none =>
          simp only [h2, Prod.mk.injEq] at h
          obtain ⟨rfl, rfl⟩ := h
          rfl
        | some c =>
          simp only [h2] at h
          rw [ih _ _ _ h k hkrest, dictGet_dictSet_ne _ _ _ _ hka]

/-- The rotation loop never changes which keys the working map holds, nor
their order. -/
theorem rotateAtoms_keys (g : Geom) (angle : ℤ) (ax0 ax1 : String)
    (atoms : List String) :
    ∀ (m m' : Coords) (e : Option PyErr),
      rotateAtoms g angle ax0 ax1 atoms m = (m', e) →
      m'.map Prod.fst = m.map Prod.fst := by
  induction atoms with
  | nil =>
    intro m m' e h
    simp only [rotateAtoms, Prod.mk.injEq] at h
    obtain ⟨rfl, rfl⟩ := h
    rfl
  | cons a rest ih =>
    intro m m' e h
    simp only [rotateAtoms] at h
    cases h0 : dictGet m ax0 with
    | none =>
      simp only [h0, Prod.mk.injEq] at h
      obtain ⟨rfl, rfl⟩ := h
      rfl
    | some v0 =>
      simp only [h0] at h
      cases h1 : dictGet m ax1 with
      | none =>
        simp only [h1, Prod.mk.injEq] at h
        obtain ⟨rfl, rfl⟩ := h
        rfl
      | some v1 =>
        simp only [h1] at h
        cases h2 : dictGet m a with
        | none =>
          simp only [h2, Prod.mk.injEq] at h
          obtain ⟨rfl, rfl⟩ := h
          rfl
        | some c =>
          simp only [h2] at h
          rw [ih _ _ _ h]
          exact keys_dictSet m a _ (by simp [dictHas, h2])

/-- When the rotation loop finishes without an exception and the axis atoms
are not themselves in the rotated list, every listed atom's coordinate is
overwritten exactly once, with the Rodrigues step applied to its original
coordinate about the axis read from the map as it stood when the chi step
began. -/
theorem rotateAtoms_moved (g : Geom) (angle : ℤ) (ax0 ax1 : String)
    (atoms : List String) :
    ∀ (m m' : Coords),
      ax0 ∉ atoms → ax1 ∉ atoms → atoms.Nodup →
      rotateAtoms g angle ax0 ax1 atoms m = (m', none) →
      ∀ a ∈ atoms, ∃ v0 v1 c,
        dictGet m ax0 = some v0 ∧ dictGet m ax1 = some v1 ∧
        dictGet m a = some c ∧
        dictGet m' a = some (chiRotate g angle v0 v1 c) := by
  induction atoms with
  | nil =>
    intro m m' _ _ _ _ a ha
    simp at ha
  | cons b rest ih =>
    intro m m' h0 h1 hnd h a ha
    rw [List.mem_cons] at h0 h1
    push_neg at h0 h1
    obtain ⟨hb0, hrest0⟩ := h0
    obtain ⟨hb1, hrest1⟩ := h1
    rw [List.nodup_cons] at hnd
    obtain ⟨hbrest, hndrest⟩ := hnd
    simp only [rotateAtoms] at h
    cases e0 : dictGet m ax0 with
    | none => simp only [e0, Prod.mk.injEq] at h; exact absurd h.2 (by simp)
    | some v0 =>
      simp only [e0] at h
      cases e1 : dictGet m ax1 with
      | none => simp only [e1, Prod.mk.injEq] at h; exact absurd h.2 (by simp)
      | some v1 =>
        simp only [e1] at h
        cases e2 : dictGet m b with
        | none => simp only [e2, Prod.mk.injEq] at h; exact absurd h.2 (by simp)
        | some c =>
          simp only [e2] at h
          rw [List.mem_cons] at ha
          rcases ha with rfl | harest
          · refine ⟨v0, v1, c, rfl, rfl, e2, ?_⟩
            rw [rotateAtoms_unmoved g angle ax0 ax1 rest _ _ _ h a hbrest]
            exact dictGet_dictSet_self m a (chiRotate g angle v0 v1 c)
          · have hab : a ≠ b := fun hc => hbrest (hc ▸ harest)
            obtain ⟨w0, w1, c', f0, f1, f2, f3⟩ :=
              ih _ _ hrest0 hrest1 hndrest h a harest
            rw [dictGet_dictSet_ne _ _ _ _ hb0, e0] at f0
            rw [dictGet_dictSet_ne _ _ _ _ hb1, e1] at f1
            rw [dictGet_dictSet_ne _ _ _ _ hab] at f2
            obtain rfl := Option.some.inj f0
            obtain rfl := Option.some.inj f1
            exact ⟨v0, v1, c', rfl, rfl, f2, f3⟩

/-- Characterization of `Residue.add`: a duplicate id raises and a fresh id
appends the atom with its parent reference set. -/
theorem add_spec_aux (r : Residue) (a : Atom) :
    (r.has_id a.name = true →
      r.add a = .error (.atomDefinedTwice a.name))
    ∧ (r.has_id a.name = false →
      r.add a = .ok { r with
        children := r.children ++ [{ a with parent := some r.id }] }) := by
  constructor <;> intro h <;> simp [Residue.add, entityAdd, h]

/-- Membership test after appending one atom. -/
theorem has_id_append_one (r : Residue) (a : Atom) (q : String) :
    Residue.has_id { r with children := r.children ++ [a] } q =
      (r.has_id q || decide (a.name = q)) := by
  simp [Residue.has_id, List.any_append]

/-- With the chi defined and every read succeeding, one chi step is exactly
the rotation loop over the atoms strictly after the axis second atom, by the
angle measured on the working map as the step begins. -/
theorem applyChiStep_eq (g : Geom) (meta : RotamerMeta) (t : String)
    (rotamer : String → Option ℤ) (angleName : String) (m : Coords)
    (cd : ChiDef) (v1 v2 v3 v4 : Vec3) (target : ℤ) (i : ℕ)
    (hchi : meta.chi angleName t = some cd)
    (hv1 : dictGet m cd.ref1 = some v1) (hv2 : dictGet m cd.ref2 = some v2)
    (hv3 : dictGet m cd.ref3 = some v3) (hv4 : dictGet m cd.ref4 = some v4)
    (hrot : rotamer angleName = some target)
    (hidx : (meta.residueOrder t).findIdx? (fun a => a == cd.axis2) = some i) :
    applyChiStep g meta t rotamer angleName m =
      rotateAtoms g (g.calcDihedral v1 v2 v3 v4 - g.deg2rad target)
        cd.axis1 cd.axis2 ((meta.residueOrder t).drop (i + 1)) m := by
  simp only [applyChiStep, hchi, hv1, hv2, hv3, hv4, hrot, hidx]

/-- The chi loop on a cons is one step sequenced before the rest. -/
theorem applyChiLoop_cons (g : Geom) (meta : RotamerMeta) (t : String)
    (rotamer : String → Option ℤ) (name : String) (rest : List String)
    (m : Coords) :
    applyChiLoop g meta t rotamer (name :: rest) m =
      stepThen (applyChiStep g meta t rotamer name)
        (applyChiLoop g meta t rotamer rest) m := by
  rfl

/-- The four chi iterations of `mutate` are the CHI1, CHI2, CHI3, CHI4 steps
sequenced in that (ascending) order, each later step consuming the map the
earlier ones produced. -/
theorem applyChis_eq_chain (g : Geom) (meta : RotamerMeta) (t : String)
    (rotamer : String → Option ℤ) (m : Coords) :
    applyChis g meta t rotamer m =
      stepThen (applyChiStep g meta t rotamer "CHI1")
        (stepThen (applyChiStep g meta t rotamer "CHI2")
          (stepThen (applyChiStep g meta t rotamer "CHI3")
            (applyChiStep g meta t rotamer "CHI4"))) m := by
  simp only [applyChis, chiNames]
  cases h1 : applyChiStep g meta t rotamer "CHI1" m with
  | mk m1 e1 =>
    cases e1 with
    | some e => simp only [applyChiLoop, stepThen, h1]
    | none =>
      simp only [applyChiLoop, stepThen, h1]
      cases h2 : applyChiStep g meta t rotamer "CHI2" m1 with
      | mk m2 e2 =>
        cases e2 with
        | some e => simp only [applyChiLoop, stepThen, h2]
        | none =>
          simp only [applyChiLoop, stepThen, h2]
          cases h3 : applyChiStep g meta t rotamer "CHI3" m2 with
          | mk m3 e3 =>
            cases e3 with
            | some e => simp only [applyChiLoop, stepThen, h3]
            | none =>
              simp only [applyChiLoop, stepThen, h3]
              cases h4 : applyChiStep g meta t rotamer "CHI4" m3 with
              | mk m4 e4 => cases e4 <;> simp only [applyChiLoop, stepThen, h4]

/-- The atom loop preserves the residue's identity fields. -/
theorem addSideChainAtoms_fields (l : List (String × Vec3)) :
    ∀ r : Residue, (addSideChainAtoms r l).1.id = r.id ∧
      (addSideChainAtoms r l).1.segid = r.segid ∧
      (addSideChainAtoms r l).1.resname = r.resname := by
  induction l with
  | nil => intro r; exact ⟨rfl, rfl, rfl⟩
  | cons p rest ih =>
    intro r
    obtain ⟨n, c⟩ := p
    by_cases hb : n ∈ backboneNames
    · simpa [addSideChainAtoms, hb] using ih r
    · by_cases hemp : n = ""
      · subst hemp
        simp [addSideChainAtoms, hb]
      · cases hbool : r.has_id n with
        | true =>
          have he := (add_spec_aux r (newSideChainAtom n c)).1 hbool
          simp [addSideChainAtoms, hb, hemp, he]
        | false =>
          have he := (add_spec_aux r (newSideChainAtom n c)).2 hbool
          simp only [addSideChainAtoms, hb, hemp, if_false, he]
          exact ih _

/-- Whatever happens (success or a raised exception), the atom loop only ever
appends atoms, and every appended atom has a non-backbone name. -/
theorem addSideChainAtoms_children (l : List (String × Vec3)) :
    ∀ r : Residue, ∃ added : List Atom,
      (addSideChainAtoms r l).1.children = r.children ++ added ∧
      ∀ a ∈ added, a.name ∉ backboneNames := by
  induction l with
  | nil =>
    intro r
    exact ⟨[], by simp [addSideChainAtoms], by simp⟩
  | cons p rest ih =>
    intro r
    obtain ⟨n, c⟩ := p
    by_cases hb : n ∈ backboneNames
    · simpa [addSideChainAtoms, hb] using ih r
    · by_cases hemp : n = ""
      · subst hemp
        have hstep : addSideChainAtoms r (("", c) :: rest) =
            (r, some PyErr.indexError) := by
          simp [addSideChainAtoms, hb]
        rw [hstep]
        exact ⟨[], by simp, by simp⟩
      · cases hbool : r.has_id n with
        | true =>
          have he := (add_spec_aux r (newSideChainAtom n c)).1 hbool
          simp only [addSideChainAtoms, hb, hemp, if_false, he]
          exact ⟨[], by simp, by simp⟩
        | false =>
          have he := (add_spec_aux r (newSideChainAtom n c)).2 hbool
          simp only [addSideChainAtoms, hb, hemp, if_false, he]
          obtain ⟨added, hch, hnb⟩ := ih
            { r with children :=
                r.children ++ [{ newSideChainAtom n c with parent := some r.id }] }
          refine ⟨{ newSideChainAtom n c with parent := some r.id } :: added, ?_, ?_⟩
          · rw [hch]
            simp
          · intro a ha
            rcases List.mem_cons.mp ha with rfl | ha'
            · simpa [newSideChainAtom] using hb
            · exact hnb a ha'

/-- On success the atom loop appends exactly one constructed atom per
non-backbone entry of the map, in map order, each with its parent set. -/
theorem addSideChainAtoms_ok (l : List (String × Vec3)) :
    ∀ (r r' : Residue), addSideChainAtoms r l = (r', none) →
      r'.children = r.children ++ (sideChainEntries l).map
        (fun p => { newSideChainAtom p.1 p.2 with parent := some r.id }) := by
  induction l with
  | nil =>
    intro r r' h
    simp only [addSideChainAtoms, Prod.mk.injEq] at h
    obtain ⟨rfl, -⟩ := h
    simp [sideChainEntries]
  | cons p rest ih =>
    intro r r' h
    obtain ⟨n, c⟩ := p
    by_cases hb : n ∈ backboneNames
    · simp only [addSideChainAtoms, hb, if_true] at h
      rw [ih r r' h]
      simp [sideChainEntries, hb]
    · by_cases hemp : n = ""
      · subst hemp
        simp [addSideChainAtoms, hb] at h
      · cases hbool : r.has_id n with
        | true =>
          have he := (add_spec_aux r (newSideChainAtom n c)).1 hbool
          simp only [addSideChainAtoms, hb, hemp, if_false, he] at h
          exact absurd (congrArg Prod.snd h) (by simp)
        | false =>
          have he := (add_spec_aux r (newSideChainAtom n c)).2 hbool
          simp only [addSideChainAtoms, hb, hemp, if_false, he] at h
          rw [ih _ _ h]
          simp [sideChainEntries, hb, List.append_assoc]

/-- When every entry of the map has a backbone name the atom loop is a
no-exception no-op. -/
theorem addSideChainAtoms_backbone_only (l : List (String × Vec3)) :
    ∀ r : Residue, (∀ p ∈ l, p.1 ∈ backboneNames) →
      addSideChainAtoms r l = (r, none) := by
  induction l with
  | nil => intro r _; rfl
  | cons p rest ih =>
    intro r h
    obtain ⟨n, c⟩ := p
    have hb : n ∈ backboneNames := h (n, c) (List.mem_cons_self _ _)
    simp only [addSideChainAtoms, hb, if_true]
    exact ih r (fun q hq => h q (List.mem_cons_of_mem _ hq))

/-- Exception characterization of the atom loop on a duplicate-free map: it
raises exactly when some non-backbone entry either has an empty name (the
element lookup fails) or a name already borne by an atom of the residue, and
every raised exception is either that index error or the duplicate-atom error
carrying a non-backbone, nonempty name. -/
theorem addSideChainAtoms_err (l : List (String × Vec3)) :
    ∀ r : Residue, (l.map Prod.fst).Nodup →
      (((addSideChainAtoms r l).2 ≠ none) ↔
        ∃ p ∈ l, p.1 ∉ backboneNames ∧ (p.1 = "" ∨ r.has_id p.1 = true))
      ∧ (∀ e, (addSideChainAtoms r l).2 = some e →
          e = PyErr.indexError ∨
          ∃ nm, e = PyErr.atomDefinedTwice nm ∧ nm ∉ backboneNames ∧ nm ≠ "") := by
  induction l with
  | nil =>
    intro r _
    constructor
    · simp [addSideChainAtoms]
    · intro e he
      simp [addSideChainAtoms] at he
  | cons p rest ih =>
    intro r hnd
    obtain ⟨n, c⟩ := p
    rw [List.map_cons, List.nodup_cons] at hnd
    obtain ⟨hn, hnd'⟩ := hnd
    by_cases hb : n ∈ backboneNames
    · have hstep : addSideChainAtoms r ((n, c) :: rest) = addSideChainAtoms r rest := by
        simp [addSideChainAtoms, hb]
      constructor
      · rw [hstep]
        constructor
        · intro hne
          obtain ⟨p, hp, hpb, hpc⟩ := (ih r hnd').1.mp hne
          exact ⟨p, List.mem_cons_of_mem _ hp, hpb, hpc⟩
        · rintro ⟨p, hp, hpb, hpc⟩
          rcases List.mem_cons.mp hp with rfl | hp'
          · exact absurd hb hpb
          · exact (ih r hnd').1.mpr ⟨p, hp', hpb, hpc⟩
      · intro e he
        rw [hstep] at he
        exact (ih r hnd').2 e he
    · by_cases hemp : n = ""
      · subst hemp
        have hstep : addSideChainAtoms r (("", c) :: rest) =
            (r, some PyErr.indexError) := by
          simp [addSideChainAtoms, hb]
        constructor
        · rw [hstep]
          constructor
          · intro _
            exact ⟨("", c), List.mem_cons_self _ _, hb, Or.inl rfl⟩
          · intro _
            simp
        · intro e he
          rw [hstep] at he
          simp only [Option.some.injEq] at he
          exact Or.inl he.symm
      · cases hbool : r.has_id n with
        | true =>
          have hname : (newSideChainAtom n c).name = n := rfl
          have hstep : addSideChainAtoms r ((n, c) :: rest) =
              (r, some (PyErr.atomDefinedTwice n)) := by
            simp [addSideChainAtoms, hb, hemp,
              (add_spec_aux r (newSideChainAtom n c)).1 hbool, hname]
          constructor
          · rw [hstep]
            constructor
            · intro _
              exact ⟨(n, c), List.mem_cons_self _ _, hb, Or.inr hbool⟩
            · intro _
              simp
          · intro e he
            rw [hstep] at he
            simp only [Option.some.injEq] at he
            exact Or.inr ⟨n, he.symm, hb, hemp⟩
        | false =>
          have he := (add_spec_aux r (newSideChainAtom n c)).2 hbool
          have hstep : addSideChainAtoms r ((n, c) :: rest) =
              addSideChainAtoms { r with children :=
                r.children ++ [{ newSideChainAtom n c with parent := some r.id }] } rest := by
            simp [addSideChainAtoms, hb, hemp, he]
          have htrans : ∀ p, p ∈ rest → Residue.has_id { r with children :=
              r.children ++ [{ newSideChainAtom n c with parent := some r.id }] } p.1 =
              r.has_id p.1 := by
            intro p hp
            have hn' : n ∉ List.map Prod.fst rest := hn
            have hpn : n ≠ p.1 := fun hc =>
              hn' (hc.symm ▸ List.mem_map_of_mem Prod.fst hp)
            rw [has_id_append_one]
            simp [newSideChainAtom, hpn]
          constructor
          · rw [hstep]
            constructor
            · intro hne
              obtain ⟨p, hp, hpb, hpc⟩ := (ih _ hnd').1.mp hne
              rw [htrans p hp] at hpc
              exact ⟨p, List.mem_cons_of_mem _ hp, hpb, hpc⟩
            · rintro ⟨p, hp, hpb, hpc⟩
              rcases List.mem_cons.mp hp with rfl | hp'
              · rcases hpc with hpe | hpid
                · exact absurd hpe hemp
                · rw [hbool] at hpid
                  cases hpid
              · refine (ih _ hnd').1.mpr ⟨p, hp', hpb, ?_⟩
                rw [htrans p hp']
                exact hpc
          · intro e hee
            rw [hstep] at hee
            exact (ih _ hnd').2 e hee

/-- C7: for every residue, adding an atom whose id (name) duplicates an
existing child's id raises the duplicate-atom error and yields no updated
residue (the atom set is unchanged), while adding an atom with a fresh id
registers it and sets its parent reference to the residue. -/
theorem residue_add_spec (r : Residue) (a : Atom) :
    (r.has_id a.name = true →
      r.add a = .error (.atomDefinedTwice a.name))
    ∧ (r.has_id a.name = false →
      r.add a = .ok { r with
        children := r.children ++ [{ a with parent := some r.id }] }) :=
  add_spec_aux r a

/-- Witness for C7 at a concrete residue: a duplicate CA is rejected and a
fresh XD is appended with its parent set. -/
theorem residue_add_spec_witness :
    demoRes.has_id "CA" = true
    ∧ demoRes.add (bbAtom "CA" (9, 9, 9)) =
        .error (.atomDefinedTwice "CA")
    ∧ demoRes.has_id "XD" = false
    ∧ demoRes.add (bbAtom "XD" (9, 9, 9)) =
        .ok { demoRes with children := demoRes.children ++
          [{ bbAtom "XD" (9, 9, 9) with parent := some demoRes.id }] } := by
  refine ⟨by decide, ?_, by decide, ?_⟩
  · exact (residue_add_spec demoRes (bbAtom "CA" (9, 9, 9))).1 (by decide)
  · exact (residue_add_spec demoRes (bbAtom "XD" (9, 9, 9))).2 (by decide)

/-- C10: when `mutate` raises at any point, the returned residue still holds
its pre-mutation `resname`: the overwrite happens only after every atom
addition has succeeded, even though some new atoms may already be present. -/
theorem mutate_error_keeps_resname (g : Geom) (meta : RotamerMeta) (r : Residue)
    (t : String) (sample : Coords) (rotamer : String → Option ℤ)
    (r' : Residue) (m' : Coords) (e : PyErr)
    (h : Residue.mutate g meta r t sample rotamer = (r', m', some e)) :
    r'.resname = r.resname := by
  unfold Residue.mutate at h
  cases hc : chiPhase g meta t rotamer sample with
  | mk m ec =>
    cases ec with
    | some e0 =>
      simp only [hc, Prod.mk.injEq] at h
      obtain ⟨rfl, -, -⟩ := h
      rfl
    | none =>
      simp only [hc] at h
      cases ha : addSideChainAtoms r m with
      | mk r0 ea =>
        cases ea with
        | none =>
          simp only [ha, Prod.mk.injEq] at h
          exact absurd h.2.2 (by simp)
        | some e0 =>
          simp only [ha, Prod.mk.injEq] at h
          obtain ⟨rfl, -, -⟩ := h
          have hf := (addSideChainAtoms_fields m r).2.2
          rw [ha] at hf
          exact hf

/-- Witness for C10: the duplicate-CB failure leaves the LEU resname. -/
theorem mutate_error_keeps_resname_witness :
    (Residue.mutate demoGeom demoMeta demoResCB "ALA" demoSampleCB demoRotNone).1.resname
      = demoResCB.resname := by
  exact mutate_error_keeps_resname demoGeom demoMeta demoResCB "ALA" demoSampleCB
    demoRotNone
    (Residue.mutate demoGeom demoMeta demoResCB "ALA" demoSampleCB demoRotNone).1
    (Residue.mutate demoGeom demoMeta demoResCB "ALA" demoSampleCB demoRotNone).2.1
    (PyErr.atomDefinedTwice "CB") (by decide)

/-- C6: `mutate` edits the receiving residue itself: its identity fields are
unchanged, its existing atoms (in particular the backbone atoms) are kept
exactly as they were with new atoms only appended after them, and every
appended atom has a name outside the backbone set. -/
theorem mutate_frame (g : Geom) (meta : RotamerMeta) (r : Residue) (t : String)
    (sample : Coords) (rotamer : String → Option ℤ)
    (r' : Residue) (m' : Coords) (e : Option PyErr)
    (h : Residue.mutate g meta r t sample rotamer = (r', m', e)) :
    r'.id = r.id ∧ r'.segid = r.segid
    ∧ ∃ added : List Atom, r'.children = r.children ++ added
        ∧ ∀ a ∈ added, a.name ∉ backboneNames := by
  unfold Residue.mutate at h
  cases hc : chiPhase g meta t rotamer sample with
  | mk m ec =>
    cases ec with
    | some e0 =>
      simp only [hc, Prod.mk.injEq] at h
      obtain ⟨rfl, -, -⟩ := h
      exact ⟨rfl, rfl, [], by simp, by simp⟩
    | none =>
      simp only [hc] at h
      cases ha : addSideChainAtoms r m with
      | mk r0 ea =>
        have hf := addSideChainAtoms_fields m r
        rw [ha] at hf
        obtain ⟨added, hch, hnb⟩ := addSideChainAtoms_children m r
        rw [ha] at hch
        cases ea with
        | none =>
          simp only [ha, Prod.mk.injEq] at h
          obtain ⟨rfl, -, -⟩ := h
          exact ⟨hf.1, hf.2.1, added, hch, hnb⟩
        | some e0 =>
          simp only [ha, Prod.mk.injEq] at h
          obtain ⟨rfl, -, -⟩ := h
          exact ⟨hf.1, hf.2.1, added, hch, hnb⟩

/-- Witness for C6 at a successful concrete mutation. -/
theorem mutate_frame_witness :
    (Residue.mutate demoGeom demoMeta demoRes "ALA" demoSampleCB demoRotNone).1.id
      = demoRes.id
    ∧ (Residue.mutate demoGeom demoMeta demoRes "ALA" demoSampleCB demoRotNone).1.segid
      = demoRes.segid := by
  have h := mutate_frame demoGeom demoMeta demoRes "ALA" demoSampleCB demoRotNone
    (Residue.mutate demoGeom demoMeta demoRes "ALA" demoSampleCB demoRotNone).1
    (Residue.mutate demoGeom demoMeta demoRes "ALA" demoSampleCB demoRotNone).2.1
    (Residue.mutate demoGeom demoMeta demoRes "ALA" demoSampleCB demoRotNone).2.2
    rfl
  exact ⟨h.1, h.2.1⟩

/-- C3: on a successful `mutate`, exactly one atom is constructed and added
(via `Residue.add`) for every non-backbone entry of the final working map, in
map order, and the constructed record carries the name, the first character of
the name as element, the 4-character space-padded display name, the possibly
rotated coordinate, B-factor 1.0, blank altloc, occupancy 1.0 and the sentinel
serial number 9999; afterwards `resname` is overwritten with the target. -/
theorem mutate_builds_side_chain_atoms (g : Geom) (meta : RotamerMeta)
    (r : Residue) (t : String) (sample : Coords) (rotamer : String → Option ℤ)
    (r' : Residue) (m' : Coords)
    (h : Residue.mutate g meta r t sample rotamer = (r', m', none)) :
    r'.resname = t
    ∧ r'.children = r.children ++ (sideChainEntries m').map
        (fun p => { newSideChainAtom p.1 p.2 with parent := some r.id })
    ∧ ∀ nm c0, newSideChainAtom nm c0 =
        { name := nm, element := nm.take 1, fullname := padFullname nm
          coord := c0, bfactor := 1, altloc := " ", occupancy := 1
          serialNumber := 9999, disorderedFlag := 0, parent := none } := by
  unfold Residue.mutate at h
  cases hc : chiPhase g meta t rotamer sample with
  | mk m ec =>
    cases ec with
    | some e0 =>
      simp only [hc, Prod.mk.injEq] at h
      exact absurd h.2.2 (by simp)
    | none =>
      simp only [hc] at h
      cases ha : addSideChainAtoms r m with
      | mk r0 ea =>
        cases ea with
        | some e0 =>
          simp only [ha, Prod.mk.injEq] at h
          exact absurd h.2.2 (by simp)
        | none =>
          simp only [ha, Prod.mk.injEq] at h
          obtain ⟨rfl, rfl, -⟩ := h
          exact ⟨rfl, addSideChainAtoms_ok m r r0 ha, fun nm c0 => rfl⟩

/-- Witness for C3 at a successful concrete mutation: the CB atom is built
and appended and the resname becomes the target. -/
theorem mutate_builds_side_chain_atoms_witness :
    (Residue.mutate demoGeom demoMeta demoRes "ALA" demoSampleCB demoRotNone).1.resname
      = "ALA"
    ∧ (Residue.mutate demoGeom demoMeta demoRes "ALA" demoSampleCB demoRotNone).1.children
      = demoRes.children ++
        (sideChainEntries
          (Residue.mutate demoGeom demoMeta demoRes "ALA" demoSampleCB demoRotNone).2.1).map
          (fun p => { newSideChainAtom p.1 p.2 with parent := some demoRes.id }) := by
  have h := mutate_builds_side_chain_atoms demoGeom demoMeta demoRes "ALA"
    demoSampleCB demoRotNone
    (Residue.mutate demoGeom demoMeta demoRes "ALA" demoSampleCB demoRotNone).1
    (Residue.mutate demoGeom demoMeta demoRes "ALA" demoSampleCB demoRotNone).2.1
    (by decide)
  exact ⟨h.1, h.2.1⟩

/-- Counterexample to C4 as stated: mutating a backbone-only residue to the
chi-free type ALA with a sample map that carries a CB entry does add an atom
beyond the existing backbone (CB appears, no exception), so a side-chain-free
mutation does not in general add no atoms. -/
theorem mutate_side_chain_free_counterexample :
    (Residue.mutate demoGeom demoMeta demoRes "ALA" demoSampleCB demoRotNone).1.has_id "CB"
      = true
    ∧ demoRes.has_id "CB" = false
    ∧ (Residue.mutate demoGeom demoMeta demoRes "ALA" demoSampleCB demoRotNone).2.2 = none
    ∧ (Residue.mutate demoGeom demoMeta demoRes "ALA" demoSampleCB demoRotNone).1.children.length
      = demoRes.children.length + 1 := by
  decide

/-- C4 amended: mutating to a chi-free target (ALA or GLY) skips every
rotation step (the working map is returned untouched) and on success
overwrites `resname` with the target, while the atoms added are exactly the
non-backbone entries of the supplied map — none at all when the map holds
only backbone atoms, in which case the whole call is exactly the resname
overwrite. -/
theorem mutate_side_chain_free_amended (g : Geom) (meta : RotamerMeta)
    (r : Residue) (t : String) (sample : Coords) (rotamer : String → Option ℤ)
    (ht : t = "ALA" ∨ t = "GLY") :
    (Residue.mutate g meta r t sample rotamer).2.1 = sample
    ∧ (∀ r' m', Residue.mutate g meta r t sample rotamer = (r', m', none) →
        r'.resname = t
        ∧ r'.children = r.children ++ (sideChainEntries sample).map
            (fun p => { newSideChainAtom p.1 p.2 with parent := some r.id }))
    ∧ ((∀ p ∈ sample, p.1 ∈ backboneNames) →
        Residue.mutate g meta r t sample rotamer =
          ({ r with resname := t }, sample, none)) := by
  have hchi : chiPhase g meta t rotamer sample = (sample, none) := by
    rcases ht with rfl | rfl
    · unfold chiPhase
      rw [if_neg (by decide)]
    · unfold chiPhase
      rw [if_neg (by decide)]
  refine ⟨?_, ?_, ?_⟩
  · unfold Residue.mutate
    rw [hchi]
    cases ha : addSideChainAtoms r sample with
    | mk r0 ea => cases ea <;> simp [ha]
  · intro r' m' h
    unfold Residue.mutate at h
    rw [hchi] at h
    cases ha : addSideChainAtoms r sample with
    | mk r0 ea =>
      cases ea with
      | some e0 =>
        simp only [ha, Prod.mk.injEq] at h
        exact absurd h.2.2 (by simp)
      | none =>
        simp only [ha, Prod.mk.injEq] at h
        obtain ⟨rfl, -, -⟩ := h
        exact ⟨rfl, addSideChainAtoms_ok sample r r0 ha⟩
  · intro hbb
    have ha := addSideChainAtoms_backbone_only sample r hbb
    unfold Residue.mutate
    simp only [hchi, ha]

/-- Witness for the amended C4: a GLY mutation over a backbone-only map is
exactly the resname overwrite. -/
theorem mutate_side_chain_free_amended_witness :
    Residue.mutate demoGeom demoMeta demoRes "GLY" demoSampleBB demoRotNone =
      ({ demoRes with resname := "GLY" }, demoSampleBB, none) := by
  exact (mutate_side_chain_free_amended demoGeom demoMeta demoRes "GLY"
    demoSampleBB demoRotNone (Or.inr rfl)).2.2 (by decide)

/-- Counterexample to C5 as stated: `mutate` raises the duplicate-atom error
for a constructed CB colliding with an existing non-backbone atom CB of the
residue, so the error is not tied to collisions with backbone atom names
(indeed a constructed atom never carries a backbone name, those being
skipped). -/
theorem mutate_duplicate_counterexample :
    (Residue.mutate demoGeom demoMeta demoResCB "ALA" demoSampleCB demoRotNone).2.2 =
      some (PyErr.atomDefinedTwice "CB")
    ∧ "CB" ∉ backboneNames
    ∧ demoResCB.has_id "CB" = true := by
  decide

/-- C5 amended: once the rotation phase has finished, `mutate` raises exactly
when some non-backbone entry of the working map either has an empty name
(the element lookup `name[0]` fails with an index error) or has the name of
an atom already present in the residue; every raised exception of this phase
is that index error or the duplicate-atom error carrying a non-backbone,
nonempty name — never a collision with a backbone atom name, those entries
being skipped. -/
theorem mutate_duplicate_error_amended (g : Geom) (meta : RotamerMeta)
    (r : Residue) (t : String) (sample : Coords) (rotamer : String → Option ℤ)
    (m : Coords)
    (hchi : chiPhase g meta t rotamer sample = (m, none))
    (hnd : (m.map Prod.fst).Nodup) :
    ((Residue.mutate g meta r t sample rotamer).2.2 ≠ none ↔
      ∃ p ∈ m, p.1 ∉ backboneNames ∧ (p.1 = "" ∨ r.has_id p.1 = true))
    ∧ (∀ e, (Residue.mutate g meta r t sample rotamer).2.2 = some e →
        e = PyErr.indexError ∨
        ∃ nm, e = PyErr.atomDefinedTwice nm ∧ nm ∉ backboneNames ∧ nm ≠ "") := by
  have herr := addSideChainAtoms_err m r hnd
  have hmu : (Residue.mutate g meta r t sample rotamer).2.2 =
      (addSideChainAtoms r m).2 := by
    unfold Residue.mutate
    simp only [hchi]
    cases ha : addSideChainAtoms r m with
    | mk r0 ea => cases ea <;> simp [ha]
  rw [hmu]
  exact herr

/-- Witness for the amended C5: the leftover CB collision makes the concrete
mutation raise. -/
theorem mutate_duplicate_error_amended_witness :
    (Residue.mutate demoGeom demoMeta demoResCB "ALA" demoSampleCB demoRotNone).2.2
      ≠ none := by
  exact (mutate_duplicate_error_amended demoGeom demoMeta demoResCB "ALA"
    demoSampleCB demoRotNone demoSampleCB (by decide) (by decide)).1.mpr
    ⟨("CB", (1, 1, 0)), by decide, by decide, Or.inr (by decide)⟩

/-- A successful `disordered_add` always selects the resname it registered. -/
theorem disordered_add_select_aux (dr : DisorderedResidue) (res : Residue) :
    (dr.disordered_add res).2 = none →
    (dr.disordered_add res).1.selected = some res.resname := by
  intro h
  by_cases hh : dictHas dr.children res.resname = true
  · simp [DisorderedResidue.disordered_add, hh] at h
  · simp [DisorderedResidue.disordered_add, hh]

/-- Counterexample to C8 as stated: adding a plain (non-disordered) atom whose
name already exists in the selected variant raises the duplicate-atom error —
not the missing-alternate-location one — and inserts nothing. -/
theorem disordered_add_plain_counterexample :
    DisorderedResidue.add demoDR (bbAtom "CA" (9, 9, 9)) =
      (demoDR, some (PyErr.atomDefinedTwice "CA"))
    ∧ (bbAtom "CA" (9, 9, 9)).disorderedFlag ≠ 2
    ∧ demoDR.selected = some "SER" := by
  refine ⟨by decide, by decide, rfl⟩

/-- C8 amended: for a disordered residue with a selected variant, adding an
atom whose name is not already in that variant inserts the atom into the
selected variant and then raises the missing-alternate-location error when
the atom is not a multi-location group, and inserts it without raising when
it is; any atom whose name collides with an atom of the selected variant
instead propagates the duplicate-atom error without inserting anything. -/
theorem disordered_add_amended (dr : DisorderedResidue) (atom : Atom)
    (key : String) (res : Residue)
    (hsel : dr.selected = some key)
    (hres : dictGet dr.children key = some res) :
    (res.has_id atom.name = false → atom.disorderedFlag ≠ 2 →
      DisorderedResidue.add dr atom =
        ({ dr with children := dictSet dr.children key ({ res with children := res.children ++ [{ atom with parent := some res.id }] }) },
          some (PyErr.blankAltlocs res.resname)))
    ∧ (res.has_id atom.name = false → atom.disorderedFlag = 2 →
      DisorderedResidue.add dr atom =
        ({ dr with children := dictSet dr.children key ({ res with children := res.children ++ [{ atom with parent := some res.id }] }) },
          none))
    ∧ (res.has_id atom.name = true →
      DisorderedResidue.add dr atom =
        (dr, some (PyErr.atomDefinedTwice atom.name))) := by
  refine ⟨?_, ?_, ?_⟩
  · intro hfresh hflag
    have hadd := (add_spec_aux res atom).2 hfresh
    simp [DisorderedResidue.add, hsel, hres, hflag, hadd]
  · intro hfresh hflag
    have hadd := (add_spec_aux res atom).2 hfresh
    simp [DisorderedResidue.add, hsel, hres, hflag, hadd]
  · intro hdup
    have hadd := (add_spec_aux res atom).1 hdup
    by_cases hflag : atom.disorderedFlag ≠ 2 <;>
      simp [DisorderedResidue.add, hsel, hres, hflag, hadd]

/-- Witness for the amended C8: a fresh plain CB is inserted into the
selected SER variant and the blank-altlocs error is raised; the disordered
CB group is inserted silently; a colliding plain CA propagates the
duplicate-atom error with nothing inserted. -/
theorem disordered_add_amended_witness :
    DisorderedResidue.add demoDR demoAtomCB =
      ({ demoDR with children := dictSet demoDR.children "SER" ({ demoVariant1 with children := demoVariant1.children ++ [{ demoAtomCB with parent := some demoVariant1.id }] }) },
        some (PyErr.blankAltlocs demoVariant1.resname))
    ∧ DisorderedResidue.add demoDR demoAtomCBGroup =
      ({ demoDR with children := dictSet demoDR.children "SER" ({ demoVariant1 with children := demoVariant1.children ++ [{ demoAtomCBGroup with parent := some demoVariant1.id }] }) },
        none)
    ∧ DisorderedResidue.add demoDR (bbAtom "CA" (7, 7, 7)) =
      (demoDR, some (PyErr.atomDefinedTwice "CA")) := by
  refine ⟨?_, ?_, ?_⟩
  · exact (disordered_add_amended demoDR demoAtomCB "SER" demoVariant1 rfl
      (by decide)).1 (by decide) (by decide)
  · exact (disordered_add_amended demoDR demoAtomCBGroup "SER" demoVariant1 rfl
      (by decide)).2.1 (by decide) (by decide)
  · exact (disordered_add_amended demoDR (bbAtom "CA" (7, 7, 7)) "SER" demoVariant1
      rfl (by decide)).2.2 (by decide)

/-- C9: the selected variant, when one exists, is always a key of the variant
mapping — both `disordered_add` and `disordered_remove` preserve this; a
successful `disordered_add` selects the resname just added (so adding R1 then
R2 ends selecting R2); and removing the selected variant promotes the first
remaining variant in insertion order, or clears the selection when the
mapping becomes empty. -/
theorem disordered_selection_spec (dr : DisorderedResidue) (res res2 : Residue)
    (resname : String) :
    (drInv dr → drInv (dr.disordered_add res).1)
    ∧ (drInv dr → drInv (dr.disordered_remove resname).1)
    ∧ ((dr.disordered_add res).2 = none →
        (dr.disordered_add res).1.selected = some res.resname)
    ∧ (((dr.disordered_add res).1.disordered_add res2).2 = none →
        ((dr.disordered_add res).1.disordered_add res2).1.selected = some res2.resname)
    ∧ (dr.selected = some resname → ∀ dr',
        dr.disordered_remove resname = (dr', none) →
        (dr'.children = [] → dr'.selected = none)
        ∧ (∀ k r0 rest, dr'.children = (k, r0) :: rest → dr'.selected = some k)) := by
  refine ⟨?_, ?_, disordered_add_select_aux dr res,
    disordered_add_select_aux _ res2, ?_⟩
  · intro hinv
    by_cases hh : dictHas dr.children res.resname = true
    · have hadd : dr.disordered_add res = (dr, some PyErr.assertionError) := by
        simp [DisorderedResidue.disordered_add, hh]
      rw [hadd]
      exact hinv
    · have hadd : dr.disordered_add res =
          ({ children := dictSet dr.children res.resname res
             selected := some res.resname }, none) := by
        simp [DisorderedResidue.disordered_add, hh]
      rw [hadd]
      intro k hk
      simp only [Option.some.injEq] at hk
      subst hk
      simp [dictHas, dictGet_dictSet_self]
  · intro hinv
    cases hg : dictGet dr.children resname with
    | none =>
      have hrem : dr.disordered_remove resname =
          (dr, some (PyErr.keyError resname)) := by
        simp [DisorderedResidue.disordered_remove, hg]
      rw [hrem]
      exact hinv
    | some r0 =>
      cases hdel : dictDel dr.children resname with
      | nil =>
        have hrem : dr.disordered_remove resname =
            ({ children := [], selected := none }, none) := by
          simp [DisorderedResidue.disordered_remove, hg, hdel]
        rw [hrem]
        intro k hk
        simp at hk
      | cons p tail =>
        obtain ⟨k0, r1⟩ := p
        by_cases hsel : dr.selected = some resname
        · have hrem : dr.disordered_remove resname =
              ({ children := (k0, r1) :: tail, selected := some k0 }, none) := by
            simp [DisorderedResidue.disordered_remove, hg, hdel, hsel]
          rw [hrem]
          intro k hk
          simp only [Option.some.injEq] at hk
          subst hk
          simp [dictHas, dictGet]
        · have hrem : dr.disordered_remove resname =
              ({ dr with children := (k0, r1) :: tail }, none) := by
            simp [DisorderedResidue.disordered_remove, hg, hdel, hsel]
          rw [hrem]
          intro k hk
          have hk' : dr.selected = some k := hk
          have hkr : k ≠ resname := fun hc => hsel (hc ▸ hk')
          have hhas := hinv k hk'
          simp only [dictHas] at hhas ⊢
          rw [← hdel, dictGet_dictDel_ne dr.children resname k hkr]
          exact hhas
  · intro hsel dr' h
    cases hg : dictGet dr.children resname with
    | none =>
      have hrem : dr.disordered_remove resname =
          (dr, some (PyErr.keyError resname)) := by
        simp [DisorderedResidue.disordered_remove, hg]
      rw [hrem] at h
      simp only [Prod.mk.injEq] at h
      exact absurd h.2 (by simp)
    | some r0 =>
      cases hdel : dictDel dr.children resname with
      | nil =>
        have hrem : dr.disordered_remove resname =
            ({ children := [], selected := none }, none) := by
          simp [DisorderedResidue.disordered_remove, hg, hdel]
        rw [hrem] at h
        simp only [Prod.mk.injEq] at h
        obtain ⟨hdr, -⟩ := h
        subst hdr
        constructor
        · intro _
          rfl
        · intro k r2 rest heq
          simp at heq
      | cons p tail =>
        obtain ⟨k0, r1⟩ := p
        have hrem : dr.disordered_remove resname =
            ({ children := (k0, r1) :: tail, selected := some k0 }, none) := by
          simp [DisorderedResidue.disordered_remove, hg, hdel, hsel]
        rw [hrem] at h
        simp only [Prod.mk.injEq] at h
        obtain ⟨hdr, -⟩ := h
        subst hdr
        constructor
        · intro hch
          simp at hch
        · intro k r2 rest heq
          simp only [List.cons.injEq, Prod.mk.injEq] at heq
          simp [heq.1.1]

/-- Witness for C9 at concrete disordered residues: adding selects the last
added resname and removing the selected variant promotes the first remaining
one. -/
theorem disordered_selection_witness :
    ((⟨[], none⟩ : DisorderedResidue).disordered_add demoVariant1).1.selected
      = some "SER"
    ∧ (((⟨[], none⟩ : DisorderedResidue).disordered_add demoVariant1).1.disordered_add
        demoVariant2).1.selected = some "CYS"
    ∧ (demoDR2.disordered_remove "CYS").1.selected = some "SER" := by
  have h := disordered_selection_spec (⟨[], none⟩ : DisorderedResidue)
    demoVariant1 demoVariant2 "X"
  have h2 := disordered_selection_spec demoDR2 demoVariant1 demoVariant2 "CYS"
  refine ⟨h.2.2.1 (by decide), h.2.2.2.1 (by decide), ?_⟩
  exact (h2.2.2.2.2 rfl (demoDR2.disordered_remove "CYS").1 (by decide)).2
    "SER" demoVariant1 [] (by decide)

/-- C1: in `mutate`, the coordinate output is that of the chi phase, which
for a target outside the chi-free pair is the CHI1, CHI2, CHI3, CHI4 steps
sequenced in strictly ascending order, a chi index undefined for the target
being a no-op; and within one applied step, every atom at or before the axis
second atom's position in the canonical ordering (indeed anything outside the
strictly-after suffix) keeps its coordinate, while every atom strictly after
that position has its coordinate rewritten by that step's rotation. -/
theorem mutate_chi_ascending_partition (g : Geom) (meta : RotamerMeta)
    (t : String) (rotamer : String → Option ℤ) (r : Residue) (sample : Coords) :
    ((Residue.mutate g meta r t sample rotamer).2.1 =
      (chiPhase g meta t rotamer sample).1)
    ∧ (t ∉ ["ALA", "GLY"] → ∀ m, chiPhase g meta t rotamer m =
        stepThen (applyChiStep g meta t rotamer "CHI1")
          (stepThen (applyChiStep g meta t rotamer "CHI2")
            (stepThen (applyChiStep g meta t rotamer "CHI3")
              (applyChiStep g meta t rotamer "CHI4"))) m)
    ∧ (∀ name m, meta.chi name t = none →
        applyChiStep g meta t rotamer name m = (m, none))
    ∧ (∀ name cd i m m',
        meta.chi name t = some cd →
        (meta.residueOrder t).findIdx? (fun a => a == cd.axis2) = some i →
        (meta.residueOrder t).Nodup →
        cd.axis1 ∉ (meta.residueOrder t).drop (i + 1) →
        cd.axis2 ∉ (meta.residueOrder t).drop (i + 1) →
        applyChiStep g meta t rotamer name m = (m', none) →
        (∀ k, k ∉ (meta.residueOrder t).drop (i + 1) → dictGet m' k = dictGet m k)
        ∧ (∀ k, k ∈ (meta.residueOrder t).take (i + 1) → dictGet m' k = dictGet m k)
        ∧ (∃ angle, ∀ a ∈ (meta.residueOrder t).drop (i + 1), ∃ v0 v1 c,
            dictGet m cd.axis1 = some v0 ∧ dictGet m cd.axis2 = some v1 ∧
            dictGet m a = some c ∧
            dictGet m' a = some (chiRotate g angle v0 v1 c))) := by
  refine ⟨?_, ?_, ?_, ?_⟩
  · unfold Residue.mutate
    cases hc : chiPhase g meta t rotamer sample with
    | mk m ec =>
      cases ec with
      | some e0 => simp
      | none =>
        cases ha : addSideChainAtoms r m with
        | mk r0 ea => cases ea <;> simp [ha]
  · intro hna m
    unfold chiPhase
    rw [if_pos hna]
    exact applyChis_eq_chain g meta t rotamer m
  · intro name m hnone
    simp [applyChiStep, hnone]
  · intro name cd i m m' hchi hidx hnd hax1 hax2 hok
    simp only [applyChiStep, hchi] at hok
    cases hv1 : dictGet m cd.ref1 with
    | none => simp [hv1] at hok
    | some v1 =>
      simp only [hv1] at hok
      cases hv2 : dictGet m cd.ref2 with
      | none => simp [hv2] at hok
      | some v2 =>
        simp only [hv2] at hok
        cases hv3 : dictGet m cd.ref3 with
        | none => simp [hv3] at hok
        | some v3 =>
          simp only [hv3] at hok
          cases hv4 : dictGet m cd.ref4 with
          | none => simp [hv4] at hok
          | some v4 =>
            simp only [hv4] at hok
            cases ht : rotamer name with
            | none => simp [ht] at hok
            | some target =>
              simp only [ht, hidx] at hok
              have hdisj : ∀ k, k ∈ (meta.residueOrder t).take (i + 1) →
                  k ∉ (meta.residueOrder t).drop (i + 1) := by
                have hsplit := List.take_append_drop (i + 1) (meta.residueOrder t)
                rw [← hsplit] at hnd
                exact fun k hk hkd => (List.nodup_append.mp hnd).2.2 hk hkd
              have hdnd : ((meta.residueOrder t).drop (i + 1)).Nodup :=
                (List.drop_sublist (i + 1) (meta.residueOrder t)).nodup hnd
              refine ⟨?_, ?_, ?_⟩
              · intro k hk
                exact rotateAtoms_unmoved g _ cd.axis1 cd.axis2 _ m m' none hok k hk
              · intro k hk
                exact rotateAtoms_unmoved g _ cd.axis1 cd.axis2 _ m m' none hok k
                  (hdisj k hk)
              · exact ⟨g.calcDihedral v1 v2 v3 v4 - g.deg2rad target,
                  rotateAtoms_moved g _ cd.axis1 cd.axis2 _ m m' hax1 hax2 hdnd hok⟩

/-- Witness for C1 at a concrete chi step: CB (the axis second atom) and N
(before the axis) keep their coordinates, and the chi phase equals the
ascending four-step chain. -/
theorem mutate_chi_ascending_partition_witness :
    dictGet (applyChiStep demoGeom demoMeta "SER" demoRot "CHI1" demoCoords).1 "CB"
      = dictGet demoCoords "CB"
    ∧ dictGet (applyChiStep demoGeom demoMeta "SER" demoRot "CHI1" demoCoords).1 "N"
      = dictGet demoCoords "N"
    ∧ chiPhase demoGeom demoMeta "SER" demoRot demoCoords =
        stepThen (applyChiStep demoGeom demoMeta "SER" demoRot "CHI1")
          (stepThen (applyChiStep demoGeom demoMeta "SER" demoRot "CHI2")
            (stepThen (applyChiStep demoGeom demoMeta "SER" demoRot "CHI3")
              (applyChiStep demoGeom demoMeta "SER" demoRot "CHI4"))) demoCoords := by
  have h := mutate_chi_ascending_partition demoGeom demoMeta "SER" demoRot
    demoRes demoCoords
  have h4 := h.2.2.2 "CHI1" demoChiDef 4 demoCoords
    (applyChiStep demoGeom demoMeta "SER" demoRot "CHI1" demoCoords).1
    (by decide) (by decide) (by decide) (by decide) (by decide) (by decide)
  exact ⟨h4.2.1 "CB" (by decide), h4.1 "N" (by decide), h.2.1 (by decide) demoCoords⟩

/-- C2: for an applied chi step of `mutate` whose reads all succeed, the
rotation angle is the current dihedral of the four reference-plane atoms
measured on the working map at the start of the step minus the rotamer's
target angle converted to radians, the rotation axis is the first axis atom's
coordinate minus the second's, and each downstream atom's new coordinate is
the Rodrigues image of its old coordinate translated into the frame of the
second axis atom and back — written in place, the map keeping exactly its
keys in their order. -/
theorem mutate_chi_rotation_formula (g : Geom) (meta : RotamerMeta) (t : String)
    (rotamer : String → Option ℤ) (name : String) (cd : ChiDef)
    (v1 v2 v3 v4 : Vec3) (target : ℤ) (i : ℕ) (m m' : Coords)
    (hchi : meta.chi name t = some cd)
    (hv1 : dictGet m cd.ref1 = some v1) (hv2 : dictGet m cd.ref2 = some v2)
    (hv3 : dictGet m cd.ref3 = some v3) (hv4 : dictGet m cd.ref4 = some v4)
    (hrot : rotamer name = some target)
    (hidx : (meta.residueOrder t).findIdx? (fun a => a == cd.axis2) = some i)
    (hnd : (meta.residueOrder t).Nodup)
    (hax1 : cd.axis1 ∉ (meta.residueOrder t).drop (i + 1))
    (hax2 : cd.axis2 ∉ (meta.residueOrder t).drop (i + 1))
    (hok : applyChiStep g meta t rotamer name m = (m', none)) :
    (m'.map Prod.fst = m.map Prod.fst)
    ∧ ∀ a ∈ (meta.residueOrder t).drop (i + 1), ∃ v0 w1 c,
        dictGet m cd.axis1 = some v0 ∧ dictGet m cd.axis2 = some w1 ∧
        dictGet m a = some c ∧
        dictGet m' a = some (g.rotApply
          (g.calcDihedral v1 v2 v3 v4 - g.deg2rad target)
          (v0 - w1) (c - w1) + w1) := by
  rw [applyChiStep_eq g meta t rotamer name m cd v1 v2 v3 v4 target i hchi
    hv1 hv2 hv3 hv4 hrot hidx] at hok
  have hdnd : ((meta.residueOrder t).drop (i + 1)).Nodup :=
    (List.drop_sublist (i + 1) (meta.residueOrder t)).nodup hnd
  constructor
  · exact rotateAtoms_keys g _ cd.axis1 cd.axis2 _ m m' none hok
  · intro a ha
    obtain ⟨v0, w1, c, f0, f1, f2, f3⟩ :=
      rotateAtoms_moved g _ cd.axis1 cd.axis2 _ m m' hax1 hax2 hdnd hok a ha
    exact ⟨v0, w1, c, f0, f1, f2, f3⟩

/-- Witness for C2 at the concrete chi step: the downstream OG atom lands on
the Rodrigues formula evaluated at its old coordinate and the axis CA-CB. -/
theorem mutate_chi_rotation_formula_witness :
    dictGet (applyChiStep demoGeom demoMeta "SER" demoRot "CHI1" demoCoords).1 "OG" =
      some (demoGeom.rotApply
        (demoGeom.calcDihedral (0, 0, 0) (1, 0, 0) (1, 1, 0) (1, 2, 0)
          - demoGeom.deg2rad 60)
        (((1, 0, 0) : Vec3) - (1, 1, 0)) (((1, 2, 0) : Vec3) - (1, 1, 0))
        + (1, 1, 0)) := by
  obtain ⟨v0, w1, c, f0, f1, f2, f3⟩ :=
    (mutate_chi_rotation_formula demoGeom demoMeta "SER" demoRot "CHI1" demoChiDef
      (0, 0, 0) (1, 0, 0) (1, 1, 0) (1, 2, 0) 60 4 demoCoords
      (applyChiStep demoGeom demoMeta "SER" demoRot "CHI1" demoCoords).1
      (by decide) (by decide) (by decide) (by decide) (by decide) (by decide)
      (by decide) (by decide) (by decide) (by decide) (by decide)).2 "OG" (by decide)
  have e0 : some v0 = some ((1, 0, 0) : Vec3) := by rw [← f0]; decide
  have e1 : some w1 = some ((1, 1, 0) : Vec3) := by rw [← f1]; decide
  have e2 : some c = some ((1, 2, 0) : Vec3) := by rw [← f2]; decide
  obtain rfl := Option.some.inj e0
  obtain rfl := Option.some.inj e1
  obtain rfl := Option.some.inj e2
  exact f3

end BioPDB
